import Mathlib

/-!
# go-mysqldump: dump-target resolution and session teardown

A shallow embedding of `mysqldump.go`:

* `formatIfTimeFormat` (the naming policy), over a model of Go's `time.Time.Format`;
* `exists`, `isDir` and `Register` over an explicit filesystem state;
* `Data.Close`, with Go's `defer`, nil receivers and panics made explicit.

Go strings are Lean strings and are processed through their character lists. Every
character the code inspects (`/`, `.`, the decimal digits, the layout letters) is ASCII,
and no byte of a multi-byte UTF-8 sequence is ASCII, so working on characters instead of
bytes changes nothing.
-/

set_option autoImplicit false

namespace Mysqldump

/-! ## Strings, `regexp` and `strings` -/

/-- Go's regular expression class `\d`: an ASCII decimal digit. -/
def isDigit (c : Char) : Bool := decide ('0' ≤ c) && decide (c ≤ '9')

/-- Matches of the regular expression `\d+` as `FindAllString(s, -1)` lists them: the
maximal runs of digits, left to right. `run` is the run being scanned, reversed. -/
def findAllDigitRuns : List Char → List Char → List (List Char)
  | [], run => if run.isEmpty then [] else [run.reverse]
  | c :: cs, run =>
    if isDigit c then findAllDigitRuns cs (c :: run)
    else if run.isEmpty then findAllDigitRuns cs []
    else run.reverse :: findAllDigitRuns cs []

/-- Go's `strings.HasPrefix` on character lists; on success the rest of the string. -/
def dropLit : List Char → List Char → Option (List Char)
  | [], s => some s
  | _ :: _, [] => none
  | p :: ps, c :: cs => if p = c then dropLit ps cs else none

/-- Go's `strings.Contains` on character lists. -/
def containsSub (sub : List Char) : List Char → Bool
  | [] => (dropLit sub []).isSome
  | c :: cs => (dropLit sub (c :: cs)).isSome || containsSub sub cs

/-- The digits of the reference time, `20060102150405`. -/
def referenceDigits : List Char := "20060102150405".data

/-- The value of `digits` in `formatIfTimeFormat`:
`strings.Join(re.FindAllString(format, -1), "")`. -/
def digitsOf (format : String) : String :=
  String.mk (findAllDigitRuns format.data []).flatten

/-! ## `time.Time.Format` -/

/-- A wall-clock reading as `time.Now()` returns it, broken down in its location the way
`Format` sees it. -/
structure Time where
  year : Int
  /-- Month, 1 for January. -/
  month : Nat
  /-- Day of the month, from 1. -/
  day : Nat
  hour : Nat
  minute : Nat
  second : Nat
  nanosecond : Nat
  /-- Day of the week, 0 for Sunday. -/
  weekday : Nat
  /-- Day of the year, from 1. -/
  yearDay : Nat
  /-- Abbreviation of the zone, empty when unknown. -/
  zoneName : String
  /-- Seconds east of UTC. -/
  zoneOffset : Int
  deriving DecidableEq, Repr

/-- The layout elements `nextStdChunk` recognises. -/
inductive Std
  | longMonth | month | numMonth | zeroMonth
  | longWeekDay | weekDay
  | day | underDay | zeroDay | underYearDay | zeroYearDay
  | hour | hour12 | zeroHour12
  | minute | zeroMinute | second | zeroSecond
  | longYear | year
  | PM | pm
  | TZ
  | ISO8601TZ | ISO8601SecondsTZ | ISO8601ShortTZ | ISO8601ColonTZ | ISO8601ColonSecondsTZ
  | numTZ | numSecondsTz | numShortTZ | numColonTZ | numColonSecondsTZ
  | fracSecond0 (digits : Nat) (sep : Char)
  | fracSecond9 (digits : Nat) (sep : Char)
  deriving DecidableEq, Repr

/-- Whether the layout element is a fractional second. -/
def Std.isFrac : Std → Bool
  | .fracSecond0 _ _ => true
  | .fracSecond9 _ _ => true
  | _ => false

/-- Decimal digits of `u`, most significant first; `fuel` bounds the number of digits. -/
def natDigits : Nat → Nat → List Char → List Char
  | 0, _, acc => acc
  | fuel + 1, u, acc =>
    if u < 10 then Nat.digitChar u :: acc
    else natDigits fuel (u / 10) (Nat.digitChar (u % 10) :: acc)

/-- Go's `appendInt`: the decimal form of `x`, zero-padded to `width` digits, after a
minus sign when `x` is negative. -/
def appendInt (x : Int) (width : Nat) : List Char :=
  let u := x.natAbs
  let ds := natDigits (u + 1) u []
  (if x < 0 then ['-'] else []) ++ List.replicate (width - ds.length) '0' ++ ds

/-- Go's `startsWithLowerCase`. -/
def startsWithLowerCase : List Char → Bool
  | [] => false
  | c :: _ => decide ('a' ≤ c) && decide (c ≤ 'z')

/-- The number of leading characters of the layout equal to `ch`, and what follows. -/
def spanChar (ch : Char) : List Char → Nat × List Char
  | [] => (0, [])
  | c :: cs => if c = ch then ((spanChar ch cs).1 + 1, (spanChar ch cs).2) else (0, c :: cs)

/-- Case `'J'` of the switch in `nextStdChunk`: `January`, `Jan`. -/
def stdJ (layout : List Char) : Option (List Char × Std × List Char) :=
  match dropLit "Jan".data layout with
  | some rest =>
    match dropLit "January".data layout with
    | some rest7 => some ([], .longMonth, rest7)
    | none => if startsWithLowerCase rest then none else some ([], .month, rest)
  | none => none

/-- Case `'M'`: `Monday`, `Mon`, `MST`. -/
def stdM (layout : List Char) : Option (List Char × Std × List Char) :=
  match dropLit "Mon".data layout with
  | some rest =>
    match dropLit "Monday".data layout with
    | some rest6 => some ([], .longWeekDay, rest6)
    | none => if startsWithLowerCase rest then none else some ([], .weekDay, rest)
  | none =>
    match dropLit "MST".data layout with
    | some rest => some ([], .TZ, rest)
    | none => none

/-- Case `'0'`, on the layout after the `0`: `01` to `06`, `002`. -/
def std0 (tail : List Char) : Option (List Char × Std × List Char) :=
  match tail with
  | [] => none
  | d :: rest =>
    if d = '1' then some ([], .zeroMonth, rest)
    else if d = '2' then some ([], .zeroDay, rest)
    else if d = '3' then some ([], .zeroHour12, rest)
    else if d = '4' then some ([], .zeroMinute, rest)
    else if d = '5' then some ([], .zeroSecond, rest)
    else if d = '6' then some ([], .year, rest)
    else
      match dropLit "02".data (d :: rest) with
      | some rest3 => some ([], .zeroYearDay, rest3)
      | none => none

/-- Case `'_'`, on the layout after the underscore: `_2`, `_2006`, `__2`. -/
def stdUnder (tail : List Char) : Option (List Char × Std × List Char) :=
  match dropLit "2".data tail with
  | some rest =>
    -- _2006 is really a literal _, followed by stdLongYear
    match dropLit "2006".data tail with
    | some rest4 => some (['_'], .longYear, rest4)
    | none => some ([], .underDay, rest)
  | none =>
    match dropLit "_2".data tail with
    | some rest => some ([], .underYearDay, rest)
    | none => none

/-- Case `'-'`: `-070000`, `-07:00:00`, `-0700`, `-07:00`, `-07`. -/
def stdMinus (layout : List Char) : Option (List Char × Std × List Char) :=
  match dropLit "-070000".data layout with
  | some rest => some ([], .numSecondsTz, rest)
  | none =>
  match dropLit "-07:00:00".data layout with
  | some rest => some ([], .numColonSecondsTZ, rest)
  | none =>
  match dropLit "-0700".data layout with
  | some rest => some ([], .numTZ, rest)
  | none =>
  match dropLit "-07:00".data layout with
  | some rest => some ([], .numColonTZ, rest)
  | none =>
  match dropLit "-07".data layout with
  | some rest => some ([], .numShortTZ, rest)
  | none => none

/-- Case `'Z'`: `Z070000`, `Z07:00:00`, `Z0700`, `Z07:00`, `Z07`. -/
def stdZ (layout : List Char) : Option (List Char × Std × List Char) :=
  match dropLit "Z070000".data layout with
  | some rest => some ([], .ISO8601SecondsTZ, rest)
  | none =>
  match dropLit "Z07:00:00".data layout with
  | some rest => some ([], .ISO8601ColonSecondsTZ, rest)
  | none =>
  match dropLit "Z0700".data layout with
  | some rest => some ([], .ISO8601TZ, rest)
  | none =>
  match dropLit "Z07:00".data layout with
  | some rest => some ([], .ISO8601ColonTZ, rest)
  | none =>
  match dropLit "Z07".data layout with
  | some rest => some ([], .ISO8601ShortTZ, rest)
  | none => none

/-- Case `'.'`, `','`, on the separator `c` and the layout after it: a run of `0` or of
`9` that no digit follows is a fractional second. -/
def stdFrac (c : Char) (tail : List Char) : Option (List Char × Std × List Char) :=
  match tail with
  | [] => none
  | ch :: rest =>
    if ch = '0' ∨ ch = '9' then
      let run := spanChar ch (ch :: rest)
      if (run.2.head?.map isDigit).getD false then none
      else some ([], if ch = '9' then .fracSecond9 (run.1 % 4096) c
                     else .fracSecond0 (run.1 % 4096) c, run.2)
    else none

/-- One iteration of the loop of `nextStdChunk`, at the position where `layout` starts:
the switch on the first character. The result is the literal text that goes with the
element (only `_` before `2006`), the element, and the rest of the layout; `none` when
no element starts here. -/
def stdAt (layout : List Char) : Option (List Char × Std × List Char) :=
  match layout with
  | [] => none
  | c :: tail =>
    if c = 'J' then stdJ layout
    else if c = 'M' then stdM layout
    else if c = '0' then std0 tail
    else if c = '1' then
      match dropLit "5".data tail with
      | some rest => some ([], .hour, rest)
      | none => some ([], .numMonth, tail)
    else if c = '2' then
      match dropLit "2006".data layout with
      | some rest => some ([], .longYear, rest)
      | none => some ([], .day, tail)
    else if c = '_' then stdUnder tail
    else if c = '3' then some ([], .hour12, tail)
    else if c = '4' then some ([], .minute, tail)
    else if c = '5' then some ([], .second, tail)
    else if c = 'P' then
      match dropLit "M".data tail with
      | some rest => some ([], .PM, rest)
      | none => none
    else if c = 'p' then
      match dropLit "m".data tail with
      | some rest => some ([], .pm, rest)
      | none => none
    else if c = '-' then stdMinus layout
    else if c = 'Z' then stdZ layout
    else if c = '.' ∨ c = ',' then stdFrac c tail
    else none

/-- Go's `nextStdChunk`: the literal text before the first layout element, that element,
and the layout after it; no element when the layout holds none. -/
def nextStdChunk : List Char → List Char × Option (Std × List Char)
  | [] => ([], none)
  | c :: cs =>
    match stdAt (c :: cs) with
    | some (pre, std, rest) => (pre, some (std, rest))
    | none => (c :: (nextStdChunk cs).1, (nextStdChunk cs).2)

/-- Go's `Month.String`. -/
def monthName : Nat → String
  | 1 => "January" | 2 => "February" | 3 => "March" | 4 => "April"
  | 5 => "May" | 6 => "June" | 7 => "July" | 8 => "August"
  | 9 => "September" | 10 => "October" | 11 => "November" | 12 => "December"
  | m => "%!Month(" ++ String.mk (appendInt m 0) ++ ")"

/-- Go's `Weekday.String`. -/
def weekdayName : Nat → String
  | 0 => "Sunday" | 1 => "Monday" | 2 => "Tuesday" | 3 => "Wednesday"
  | 4 => "Thursday" | 5 => "Friday" | 6 => "Saturday"
  | d => "%!Weekday(" ++ String.mk (appendInt d 0) ++ ")"

/-- Go's `appendNano`: the fractional second, `n` digits after the separator `sep`;
with `trim` (layout digits `9`) trailing zeros are removed, and the separator with them
when nothing is left. -/
def appendNano (nanosec : Nat) (trim : Bool) (n : Nat) (sep : Char) : List Char :=
  if trim && (n == 0 || nanosec == 0) then []
  else
    let ds := appendInt nanosec 9
    let b := sep :: (if n < 9 then ds.take (ds.length - (9 - n)) else ds)
    if trim then
      let b0 := (b.reverse.dropWhile (fun c => c == '0')).reverse
      if b0.getLast? = some sep then b0.dropLast else b0
    else b

/-- The zone offset as `appendFormat` writes the numeric zone elements: sign, hours,
optional colon, minutes unless `short`, and seconds (after a colon when `colon`) when
`withSeconds`. Go's integer division truncates towards zero. -/
def appendNumZone (offset : Int) (colon short withSeconds : Bool) : List Char :=
  let zone := offset.tdiv 60
  let absoffset := if zone < 0 then -offset else offset
  let zoneAbs := if zone < 0 then -zone else zone
  (if zone < 0 then ['-'] else ['+'])
    ++ appendInt (zoneAbs.tdiv 60) 2
    ++ (if colon then [':'] else [])
    ++ (if short then [] else appendInt (zoneAbs.tmod 60) 2)
    ++ (if withSeconds then (if colon then [':'] else []) ++ appendInt (absoffset.tmod 60) 2
        else [])

/-- The `Z` zone elements: `Z` at offset zero, the numeric zone otherwise. -/
def appendISOZone (offset : Int) (colon short withSeconds : Bool) : List Char :=
  if offset = 0 then ['Z'] else appendNumZone offset colon short withSeconds

/-- The `switch std & stdMask` of Go's `appendFormat`: what one layout element writes. -/
def appendStd (t : Time) : Std → List Char
  | .year => appendInt ((if t.year < 0 then -t.year else t.year).tmod 100) 2
  | .longYear => appendInt t.year 4
  | .month => (monthName t.month).data.take 3
  | .longMonth => (monthName t.month).data
  | .numMonth => appendInt t.month 0
  | .zeroMonth => appendInt t.month 2
  | .weekDay => (weekdayName t.weekday).data.take 3
  | .longWeekDay => (weekdayName t.weekday).data
  | .day => appendInt t.day 0
  | .underDay => (if t.day < 10 then [' '] else []) ++ appendInt t.day 0
  | .zeroDay => appendInt t.day 2
  | .underYearDay =>
    (if t.yearDay < 100 then ' ' :: (if t.yearDay < 10 then [' '] else []) else [])
      ++ appendInt t.yearDay 0
  | .zeroYearDay => appendInt t.yearDay 3
  | .hour => appendInt t.hour 2
  | .hour12 => appendInt (if t.hour % 12 = 0 then 12 else t.hour % 12 : Nat) 0
  | .zeroHour12 => appendInt (if t.hour % 12 = 0 then 12 else t.hour % 12 : Nat) 2
  | .minute => appendInt t.minute 0
  | .zeroMinute => appendInt t.minute 2
  | .second => appendInt t.second 0
  | .zeroSecond => appendInt t.second 2
  | .PM => if t.hour ≥ 12 then "PM".data else "AM".data
  | .pm => if t.hour ≥ 12 then "pm".data else "am".data
  | .ISO8601TZ => appendISOZone t.zoneOffset false false false
  | .ISO8601ColonTZ => appendISOZone t.zoneOffset true false false
  | .ISO8601SecondsTZ => appendISOZone t.zoneOffset false false true
  | .ISO8601ShortTZ => appendISOZone t.zoneOffset false true false
  | .ISO8601ColonSecondsTZ => appendISOZone t.zoneOffset true false true
  | .numTZ => appendNumZone t.zoneOffset false false false
  | .numColonTZ => appendNumZone t.zoneOffset true false false
  | .numSecondsTz => appendNumZone t.zoneOffset false false true
  | .numShortTZ => appendNumZone t.zoneOffset false true false
  | .numColonSecondsTZ => appendNumZone t.zoneOffset true false true
  | .TZ =>
    if t.zoneName ≠ "" then t.zoneName.data
    else appendNumZone t.zoneOffset false false false
  | .fracSecond0 n sep => appendNano t.nanosecond false n sep
  | .fracSecond9 n sep => appendNano t.nanosecond true n sep

/-- The loop of Go's `appendFormat`: copy the literal text, write the element, go on
with the rest of the layout. Each round consumes at least one character, so `fuel` equal
to the length of the layout is never exhausted. -/
def formatLoop (t : Time) : Nat → List Char → List Char
  | 0, _ => []
  | _, [] => []
  | fuel + 1, c :: cs =>
    match nextStdChunk (c :: cs) with
    | (pre, none) => pre
    | (pre, some (std, rest)) => pre ++ appendStd t std ++ formatLoop t fuel rest

/-- Go's `Time.Format`: the time rendered according to `layout`. -/
def Time.Format (t : Time) (layout : String) : String :=
  String.mk (formatLoop t layout.length layout.data)

/-! ## The naming policy -/

/-- `formatIfTimeFormat` of `mysqldump.go`, with the value of `time.Now()` as the
parameter `now`. -/
def formatIfTimeFormat (now : Time) (format : String) : String :=
  -- 提取所有数字
  let digits := digitsOf format
  -- 检查是否包含标准时间序列
  if containsSub referenceDigits digits.data then
    now.Format format
  else
    format

/-- A clock reading used in examples: Tuesday 2024-03-05, 10:15:30.123456789 UTC. -/
def sampleTime : Time :=
  { year := 2024, month := 3, day := 5, hour := 10, minute := 15, second := 30,
    nanosecond := 123456789, weekday := 2, yearDay := 65, zoneName := "UTC", zoneOffset := 0 }

/-! ## `path.Join` -/

/-- The backtracking step of Go's `path.Clean` on a `..` element: drop the last character
of the buffer, then go on dropping while more than `dotdot` characters are left and the
character dropped is not a slash. The argument is the buffer, last character first. -/
def cleanBacktrack (dotdot : Nat) : List Char → List Char
  | [] => []
  | c :: rest => if rest.length > dotdot && c != '/' then cleanBacktrack dotdot rest else rest

/-- The loop of Go's `path.Clean` over the unread part of the path, with the cases of
its switch in their order. `out` is the output buffer with its last character first,
`dotdot` the length of the output that a `..` element may not remove. Each round consumes
at least one character of the path. -/
def cleanLoop (rooted : Bool) : Nat → List Char → List Char → Nat → List Char
  | 0, _, out, _ => out
  | _, [], out, _ => out
  | fuel + 1, c :: rest, out, dotdot =>
    if c = '/' then
      -- empty path element
      cleanLoop rooted fuel rest out dotdot
    else if c = '.' ∧ (rest = [] ∨ rest.head? = some '/') then
      -- . element
      cleanLoop rooted fuel rest out dotdot
    else if c = '.' ∧ rest.head? = some '.' ∧ (rest.tail = [] ∨ rest.tail.head? = some '/') then
      -- .. element: remove to last /
      if out.length > dotdot then
        -- can backtrack
        cleanLoop rooted fuel rest.tail (cleanBacktrack dotdot out) dotdot
      else if !rooted then
        -- cannot backtrack, but not rooted, so append .. element
        let out1 := '.' :: '.' :: (if out.length > 0 then '/' :: out else out)
        cleanLoop rooted fuel rest.tail out1 out1.length
      else cleanLoop rooted fuel rest.tail out dotdot
    else
      -- real path element: add slash if needed, copy element
      let out1 := if (rooted && out.length != 1) || (!rooted && out.length != 0)
        then '/' :: out else out
      cleanLoop rooted fuel (rest.dropWhile (fun x => x != '/'))
        ((c :: rest.takeWhile (fun x => x != '/')).reverse ++ out1) dotdot

/-- Go's `path.Clean`: the shortest path name equivalent to `path` by purely lexical
processing. -/
def pathClean (path : String) : String :=
  match path.data with
  | [] => "."
  | c :: cs =>
    let rooted := c = '/'
    let out := cleanLoop rooted (path.length + 1) (if rooted then cs else c :: cs)
      (if rooted then ['/'] else []) (if rooted then 1 else 0)
    if out.isEmpty then "." else String.mk out.reverse

/-- Go's `path.Join` of two elements: the elements joined by a slash, an empty first
element left out, and the result cleaned; the empty string when both are empty. -/
def pathJoin (a b : String) : String :=
  if a = "" ∧ b = "" then ""
  else pathClean (if a = "" then b else a ++ "/" ++ b)

/-! ## The filesystem and package `os` -/

/-- What a path names: a regular file with its bytes, or a directory. -/
inductive Node
  | file (content : List Nat)
  | dir
  deriving DecidableEq, Repr

/-- The state of the filesystem as the process sees it. An entry is keyed by the names
that lead to it from the root, and the root is a directory. There are no symbolic links,
and the process may search every directory and open every entry. -/
structure FileSystem where
  entries : List (List String × Node)
  /-- Working directory of the process. -/
  cwd : List String
  deriving DecidableEq, Repr

/-- The entry with the given key. -/
def FileSystem.lookup (fs : FileSystem) (key : List String) : Option Node :=
  if key = [] then some .dir else fs.entries.lookup key

/-- The filesystem with `key` bound to `node`. -/
def FileSystem.set (fs : FileSystem) (key : List String) (node : Node) : FileSystem :=
  { fs with entries := (key, node) :: fs.entries.filter (fun e => e.1 != key) }

/-- Error numbers of the system calls used. -/
inductive Errno
  | ENOENT | ENOTDIR | EISDIR
  deriving DecidableEq, Repr

/-- Go error values: one made by `errors.New`, or the `*fs.PathError` of package `os`. -/
inductive GoError
  | new (text : String)
  | pathError (op path : String) (errno : Errno)
  deriving DecidableEq, Repr

/-- The names between the slashes of a path. -/
def splitPath : List Char → List (List Char)
  | [] => [[]]
  | c :: cs =>
    if c = '/' then [] :: splitPath cs
    else match splitPath cs with
      | [] => [[c]]
      | x :: xs => (c :: x) :: xs

/-- The names between the slashes of a path, as strings. -/
def components (name : String) : List String :=
  (splitPath name.data).map String.mk

/-- One step of path resolution from the directory `cur`. -/
def stepInto (cur : List String) (c : String) : List String :=
  if c = "" ∨ c = "." then cur
  else if c = ".." then cur.dropLast
  else cur ++ [c]

/-- Path resolution by the kernel: follow the names from `cur`; a name is looked up in
`cur` only if `cur` exists and is a directory. -/
def FileSystem.walk (fs : FileSystem) : List String → List String → Except Errno (List String)
  | cur, [] => .ok cur
  | cur, c :: cs =>
    match fs.lookup cur with
    | some .dir => fs.walk (stepInto cur c) cs
    | some (.file _) => .error .ENOTDIR
    | none => .error .ENOENT

/-- Where resolution of `name` starts: the root for a rooted path, else the working
directory. -/
def FileSystem.start (fs : FileSystem) (name : String) : List String :=
  if name.data.head? = some '/' then [] else fs.cwd

/-- The entry that `name` resolves to, with its key. -/
def FileSystem.resolve (fs : FileSystem) (name : String) : Except Errno (List String × Node) :=
  if name = "" then .error .ENOENT
  else
    match fs.walk (fs.start name) (components name) with
    | .ok key =>
      match fs.lookup key with
      | some node => .ok (key, node)
      | none => .error .ENOENT
    | .error e => .error e

/-- An open file, `*os.File`: the name it was opened with and the entry it refers to. -/
structure File where
  name : String
  key : List String
  deriving DecidableEq, Repr

/-- What the code reads of an `os.FileInfo`. -/
structure FileInfo where
  size : Nat
  isDir : Bool
  deriving DecidableEq, Repr

/-- Go's `os.Open`: open the named entry for reading. -/
def osOpen (fs : FileSystem) (name : String) : Except GoError File :=
  match fs.resolve name with
  | .ok (key, _) => .ok { name := name, key := key }
  | .error e => .error (.pathError "open" name e)

/-- Go's `(*os.File).Stat`. -/
def File.Stat (fs : FileSystem) (f : File) : Except GoError FileInfo :=
  match fs.lookup f.key with
  | some (.file content) => .ok { size := content.length, isDir := false }
  | some .dir => .ok { size := 0, isDir := true }
  | none => .error (.pathError "stat" f.name .ENOENT)

/-- Go's `os.Create`: `OpenFile(name, O_RDWR|O_CREATE|O_TRUNC, 0666)`. An existing regular
file is truncated, a directory is refused; otherwise an empty file is created in the
parent directory, which must exist. -/
def osCreate (fs : FileSystem) (name : String) : Except GoError (FileSystem × File) :=
  match fs.resolve name with
  | .ok (key, .file _) => .ok (fs.set key (.file []), { name := name, key := key })
  | .ok (_, .dir) => .error (.pathError "open" name .EISDIR)
  | .error e =>
    if name = "" then .error (.pathError "open" name e)
    else
      let names := components name
      match fs.walk (fs.start name) names.dropLast, names.getLast? with
      | .ok parent, some last =>
        if last = "" ∨ last = "." ∨ last = ".." then .error (.pathError "open" name e)
        else
          match fs.lookup parent, fs.lookup (parent ++ [last]) with
          | some .dir, none =>
            .ok (fs.set (parent ++ [last]) (.file []), { name := name, key := parent ++ [last] })
          | _, _ => .error (.pathError "open" name e)
      | _, _ => .error (.pathError "open" name e)

/-! ## Sessions -/

/-- A database handle, the target of a non-nil `*sql.DB`. -/
structure DB where
  id : Nat
  deriving DecidableEq, Repr

/-- The dynamic value of a non-nil `io.Writer`: an `*os.File`, or some other writer
whose type has a `Close() error` method or not. -/
inductive Writer
  | file (f : File)
  | other (id : Nat) (hasClose : Bool)
  deriving DecidableEq, Repr

/-- Modelled from the spec: the declaration of the struct `Data` is not part of
`mysqldump.go`. The session of the spec owns a `connection` and a `sink`; the code names
them `Connection`, a `*sql.DB`, and `Out`, an `io.Writer`. `none` stands for Go's
`nil`. -/
structure Data where
  Out : Option Writer
  Connection : Option DB
  deriving DecidableEq, Repr

/-- `exists` of `mysqldump.go` (the name is reserved in Lean): whether `p` can be opened,
and its file information. The deferred `f.Close()` changes nothing that is modelled. -/
def existsAt (fs : FileSystem) (p : String) : Bool × Option FileInfo :=
  match osOpen fs p with
  | .error _ => (false, none)
  | .ok f =>
    match f.Stat fs with
    | .error _ => (false, none)
    | .ok fi => (true, some fi)

/-- `isDir` of `mysqldump.go`. -/
def isDir (fs : FileSystem) (p : String) : Bool :=
  match existsAt fs p with
  | (true, some fi) => fi.isDir
  | _ => false

/-- What a call of `Register` leaves: the filesystem after the call and the two values
returned, `none` for `nil`. -/
structure RegisterResult where
  fs : FileSystem
  data : Option Data
  err : Option GoError
  deriving DecidableEq, Repr

/-- `Register` of `mysqldump.go`, run on the filesystem `fs` when the clock reads `now`. -/
def Register (fs : FileSystem) (now : Time) (db : Option DB) (dir format : String) :
    RegisterResult :=
  if !isDir fs dir then
    { fs := fs, data := none, err := some (.new "Invalid directory") }
  else
    let p := pathJoin dir (formatIfTimeFormat now format ++ ".sql")
    -- Check dump directory
    if (existsAt fs p).1 then
      { fs := fs, data := none, err := some (.new ("Dump '" ++ p ++ "' already exists.")) }
    else
      -- Create .sql file
      match osCreate fs p with
      | .error err => { fs := fs, data := none, err := some err }
      | .ok (fs1, f) =>
        { fs := fs1, data := some { Out := some (.file f), Connection := db }, err := none }

/-! ## `Close` -/

/-- What a call of a `Close` method of an output stream does: it returns its error
(`none` for `nil`), or it panics. -/
inductive CallResult
  | returns (err : Option GoError)
  | panics
  deriving DecidableEq, Repr

/-- How the resources of a session answer when closed. `(*sql.DB).Close` on a handle
that is not nil returns its error. -/
structure Resources where
  outClose : Writer → CallResult
  dbClose : DB → Option GoError

/-- A close operation performed on a resource. -/
inductive Event
  | outClose (w : Writer)
  | dbClose (db : DB)
  deriving DecidableEq, Repr

/-- How a call ends: it returns its error, or it panics. -/
inductive Outcome
  | returned (err : Option GoError)
  | panicked
  deriving DecidableEq, Repr

/-- What a call of `Close` leaves: the fields of the session after the call, the close
operations performed on resources, in order, and how the call ended. -/
structure CloseRun where
  data : Data
  calls : List Event
  outcome : Outcome
  deriving DecidableEq, Repr

/-- Whether the dynamic type of the writer has a `Close() error` method. -/
def Writer.hasCloseMethod : Writer → Bool
  | .file _ => true
  | .other _ hasClose => hasClose

/-- The type assertion `data.Out.(io.Closer)` in its two-valued form: `none` when `ok`
is false, which is the case for a nil interface. -/
def asCloser : Option Writer → Option Writer
  | some w => if w.hasCloseMethod then some w else none
  | none => none

/-- The statement `return data.Connection.Close()`. On a nil `*sql.DB` the method
dereferences its receiver (`db.mu.Lock()`) and panics; no resource is touched. -/
def connectionClose (r : Resources) : Option DB → List Event × Outcome
  | none => ([], .panicked)
  | some db => ([.dbClose db], .returned (r.dbClose db))

/-- The body of `Data.Close`, without the deferred function. The value returned by
`out.Close()` is not used. -/
def closeBody (r : Resources) (data : Data) : List Event × Outcome :=
  match asCloser data.Out with
  | some out =>
    match r.outClose out with
    | .panics => ([.outClose out], .panicked)
    | .returns _ =>
      ([.outClose out] ++ (connectionClose r data.Connection).1,
        (connectionClose r data.Connection).2)
  | none => connectionClose r data.Connection

/-- `Data.Close` of `mysqldump.go`. The deferred function runs when the body returns
and when it panics, and sets both fields to nil. -/
def Data.Close (r : Resources) (data : Data) : CloseRun :=
  { data := { Out := none, Connection := none }
    calls := (closeBody r data).1
    outcome := (closeBody r data).2 }

/-! ## Sample states -/

/-- A filesystem with the empty directory `/tmp/dumps`; the working directory is the
root. -/
def sampleFS : FileSystem :=
  { entries := [(["tmp"], .dir), (["tmp", "dumps"], .dir)], cwd := [] }

/-- The same filesystem with a three-byte dump `/tmp/dumps/backup.sql`. -/
def sampleFSWithDump : FileSystem :=
  { entries := [(["tmp"], .dir), (["tmp", "dumps"], .dir),
      (["tmp", "dumps", "backup.sql"], .file [45, 45, 10])], cwd := [] }

/-- A database handle. -/
def sampleDB : DB := { id := 1 }

/-- Resources that all close without error. -/
def quietResources : Resources :=
  { outClose := fun _ => .returns none, dbClose := fun _ => none }

/-- Resources whose output stream fails to close while the database closes without
error. -/
def failingSinkResources : Resources :=
  { outClose := fun _ => .returns (some (.new "close failed")), dbClose := fun _ => none }

/-- An open session on a stream that has a `Close` method. -/
def sampleSession : Data :=
  { Out := some (.other 7 true), Connection := some sampleDB }

end Mysqldump

namespace Mysqldump

/-! ## Lemmas on strings -/

theorem findAllDigitRuns_flatten (s run : List Char) :
    (findAllDigitRuns s run).flatten = run.reverse ++ s.filter isDigit := by
  induction s generalizing run with
  | nil =>
    cases run <;> simp [findAllDigitRuns]
  | cons c cs ih =>
    by_cases hc : isDigit c = true
    · simp [findAllDigitRuns, hc, ih]
    · cases run <;> simp [findAllDigitRuns, hc, ih]

theorem digitsOf_data (format : String) :
    (digitsOf format).data = format.data.filter isDigit := by
  simp [digitsOf, findAllDigitRuns_flatten]

theorem dropLit_isSome_iff (sub s : List Char) :
    (dropLit sub s).isSome = true ↔ sub <+: s := by
  induction sub generalizing s with
  | nil => simp [dropLit]
  | cons p ps ih =>
    cases s with
    | nil => simp [dropLit]
    | cons c cs =>
      by_cases h : p = c
      · subst h
        simp [dropLit, ih, List.cons_prefix_cons]
      · simp [dropLit, h, List.cons_prefix_cons]

theorem containsSub_iff (sub s : List Char) :
    containsSub sub s = true ↔ sub <:+: s := by
  induction s with
  | nil =>
    simp [containsSub, dropLit_isSome_iff]
  | cons c cs ih =>
    simp only [containsSub, Bool.or_eq_true, dropLit_isSome_iff, ih]
    constructor
    · rintro (h | h)
      · exact h.isInfix
      · exact h.trans (List.suffix_cons c cs).isInfix
    · intro h
      rcases List.infix_cons_iff.mp h with h | h
      · exact Or.inl h
      · exact Or.inr h

/-! ## Lemmas on `appendInt` -/

theorem natDigits_length_le (fuel : Nat) :
    ∀ (k u : Nat) (acc : List Char), 1 ≤ k → u < 10 ^ k →
      (natDigits fuel u acc).length ≤ acc.length + k := by
  induction fuel with
  | zero => intro k u acc _ _; simp [natDigits]
  | succ fuel ih =>
    intro k u acc hk hu
    by_cases h10 : u < 10
    · simp [natDigits, h10]; omega
    · obtain ⟨j, rfl⟩ : ∃ j, k = j + 1 := ⟨k - 1, by omega⟩
      have hj : 1 ≤ j := by
        rcases Nat.eq_zero_or_pos j with h0 | h0
        · subst h0; simp at hu; omega
        · exact h0
      have hdiv : u / 10 < 10 ^ j := by
        rw [Nat.div_lt_iff_lt_mul (by norm_num)]
        rw [pow_succ] at hu; exact hu
      have := ih j (u / 10) (Nat.digitChar (u % 10) :: acc) hj hdiv
      simp only [natDigits, h10, if_false]
      simp only [List.length_cons] at this
      omega

theorem natDigits_length_pos (fuel u : Nat) (acc : List Char) :
    acc.length + 1 ≤ (natDigits (fuel + 1) u acc).length := by
  induction fuel generalizing u acc with
  | zero =>
    by_cases h10 : u < 10 <;> simp [natDigits, h10]
  | succ fuel ih =>
    by_cases h10 : u < 10
    · simp [natDigits, h10]
    · have := ih (u / 10) (Nat.digitChar (u % 10) :: acc)
      rw [natDigits]
      simp only [h10, if_false]
      simp only [List.length_cons] at this
      omega

theorem digitChar_isDigit (d : Nat) (h : d < 10) : isDigit (Nat.digitChar d) = true := by
  interval_cases d <;> decide

theorem natDigits_isDigit (fuel : Nat) :
    ∀ (u : Nat) (acc : List Char), (∀ c ∈ acc, isDigit c = true) →
      ∀ c ∈ natDigits fuel u acc, isDigit c = true := by
  induction fuel with
  | zero => intro u acc hacc c hc; exact hacc c (by simpa [natDigits] using hc)
  | succ fuel ih =>
    intro u acc hacc c hc
    by_cases h10 : u < 10
    · simp only [natDigits, h10, if_true, List.mem_cons] at hc
      rcases hc with rfl | hc
      · exact digitChar_isDigit u h10
      · exact hacc c hc
    · simp only [natDigits, h10, if_false] at hc
      refine ih (u / 10) _ ?_ c hc
      intro c hc
      rcases List.mem_cons.mp hc with rfl | hc
      · exact digitChar_isDigit _ (Nat.mod_lt _ (by norm_num))
      · exact hacc c hc

/-- A number of at most `width` digits is written by `appendInt` with exactly `width`
characters, all of them digits. -/
theorem appendInt_nat (n width : Nat) (hw : 1 ≤ width) (hn : n < 10 ^ width) :
    (appendInt (n : Int) width).length = width ∧
      ∀ c ∈ appendInt (n : Int) width, isDigit c = true := by
  have hle := natDigits_length_le (n + 1) width n [] hw hn
  have hpos := natDigits_length_pos n n []
  simp only [List.length_nil, Nat.zero_add] at hle hpos
  have hneg : ¬ ((n : Int) < 0) := by omega
  constructor
  · simp only [appendInt, hneg, if_false, Int.natAbs_ofNat, List.nil_append,
      List.length_append, List.length_replicate]
    omega
  · intro c hc
    simp only [appendInt, hneg, if_false, Int.natAbs_ofNat, List.nil_append,
      List.mem_append, List.mem_replicate] at hc
    rcases hc with ⟨_, rfl⟩ | hc
    · decide
    · exact natDigits_isDigit _ n [] (by simp) c hc

/-- The layout `20060102150405` renders year, month, day, hour, minute and second, each
zero-padded, the year to four digits and the others to two. -/
theorem format_reference (now : Time) :
    now.Format "20060102150405" =
      String.mk (appendInt now.year 4 ++ appendInt now.month 2
        ++ appendInt now.day 2 ++ appendInt now.hour 2 ++ appendInt now.minute 2
        ++ appendInt now.second 2) := by
  have h : now.Format "20060102150405" =
      String.mk (appendInt now.year 4 ++ (appendInt now.month 2
        ++ (appendInt now.day 2 ++ (appendInt now.hour 2 ++ (appendInt now.minute 2
        ++ (appendInt now.second 2 ++ [])))))) := rfl
  rw [h]
  simp only [List.append_nil, List.append_assoc]

/-! ## The loops never run out of fuel -/

theorem dropLit_length (p s rest : List Char) (h : dropLit p s = some rest) :
    rest.length + p.length = s.length := by
  induction p generalizing s with
  | nil => simp [dropLit] at h; simp [h]
  | cons a ps ih =>
    cases s with
    | nil => simp [dropLit] at h
    | cons c cs =>
      by_cases hac : a = c
      · simp only [dropLit, hac, if_true] at h
        have := ih cs h
        simp only [List.length_cons]; omega
      · simp [dropLit, hac] at h

theorem spanChar_length (ch : Char) (l : List Char) :
    (spanChar ch l).2.length ≤ l.length := by
  induction l with
  | nil => simp [spanChar]
  | cons c cs ih =>
    by_cases h : c = ch
    · simp only [spanChar, h, if_true, List.length_cons]; omega
    · simp [spanChar, h]

theorem stdJ_length (l pre rest : List Char) (std : Std)
    (h : stdJ l = some (pre, std, rest)) : rest.length < l.length := by
  unfold stdJ at h
  cases h3 : dropLit "Jan".data l with
  | none => simp [h3] at h
  | some r3 =>
    have e3 := dropLit_length _ _ _ h3
    cases h7 : dropLit "January".data l with
    | some r7 =>
      have e7 := dropLit_length _ _ _ h7
      simp only [h3, h7, Option.some.injEq, Prod.mk.injEq] at h
      obtain ⟨_, _, rfl⟩ := h
      simp at e7; omega
    | none =>
      simp only [h3, h7] at h
      split at h
      · cases h
      · simp only [Option.some.injEq, Prod.mk.injEq] at h
        obtain ⟨_, _, rfl⟩ := h
        simp at e3; omega

theorem stdM_length (l pre rest : List Char) (std : Std)
    (h : stdM l = some (pre, std, rest)) : rest.length < l.length := by
  unfold stdM at h
  cases h3 : dropLit "Mon".data l with
  | none =>
    cases hz : dropLit "MST".data l with
    | none => simp [h3, hz] at h
    | some rz =>
      have ez := dropLit_length _ _ _ hz
      simp only [h3, hz, Option.some.injEq, Prod.mk.injEq] at h
      obtain ⟨_, _, rfl⟩ := h
      simp at ez; omega
  | some r3 =>
    have e3 := dropLit_length _ _ _ h3
    cases h6 : dropLit "Monday".data l with
    | some r6 =>
      have e6 := dropLit_length _ _ _ h6
      simp only [h3, h6, Option.some.injEq, Prod.mk.injEq] at h
      obtain ⟨_, _, rfl⟩ := h
      simp at e6; omega
    | none =>
      simp only [h3, h6] at h
      split at h
      · cases h
      · simp only [Option.some.injEq, Prod.mk.injEq] at h
        obtain ⟨_, _, rfl⟩ := h
        simp at e3; omega

theorem std0_length (tail pre rest : List Char) (std : Std)
    (h : std0 tail = some (pre, std, rest)) : rest.length ≤ tail.length := by
  unfold std0 at h
  cases tail with
  | nil => simp at h
  | cons d t =>
    simp only at h
    repeat' split at h
    all_goals first
      | (cases h; done)
      | (cases h; simp only [List.length_cons]; omega)
      | (cases h; rename_i hd; have := dropLit_length _ _ _ hd; simp at this ⊢; omega)

theorem stdUnder_length (tail pre rest : List Char) (std : Std)
    (h : stdUnder tail = some (pre, std, rest)) : rest.length ≤ tail.length := by
  unfold stdUnder at h
  cases h2 : dropLit "2".data tail with
  | some r2 =>
    have e2 := dropLit_length _ _ _ h2
    cases h4 : dropLit "2006".data tail with
    | some r4 =>
      have e4 := dropLit_length _ _ _ h4
      simp only [h2, h4, Option.some.injEq, Prod.mk.injEq] at h
      obtain ⟨_, _, rfl⟩ := h
      omega
    | none =>
      simp only [h2, h4, Option.some.injEq, Prod.mk.injEq] at h
      obtain ⟨_, _, rfl⟩ := h
      omega
  | none =>
    cases hu : dropLit "_2".data tail with
    | none => simp [h2, hu] at h
    | some ru =>
      have eu := dropLit_length _ _ _ hu
      simp only [h2, hu, Option.some.injEq, Prod.mk.injEq] at h
      obtain ⟨_, _, rfl⟩ := h
      omega

theorem stdMinus_length (l pre rest : List Char) (std : Std)
    (h : stdMinus l = some (pre, std, rest)) : rest.length < l.length := by
  unfold stdMinus at h
  repeat' split at h
  all_goals first
    | (cases h; done)
    | (cases h; rename_i hd; have := dropLit_length _ _ _ hd; simp at this; omega)

theorem stdZ_length (l pre rest : List Char) (std : Std)
    (h : stdZ l = some (pre, std, rest)) : rest.length < l.length := by
  unfold stdZ at h
  repeat' split at h
  all_goals first
    | (cases h; done)
    | (cases h; rename_i hd; have := dropLit_length _ _ _ hd; simp at this; omega)

theorem stdFrac_length (c : Char) (tail pre rest : List Char) (std : Std)
    (h : stdFrac c tail = some (pre, std, rest)) : rest.length ≤ tail.length := by
  unfold stdFrac at h
  cases tail with
  | nil => simp at h
  | cons ch t =>
    simp only at h
    repeat' split at h
    all_goals first
      | (cases h; done)
      | (cases h; exact Nat.le_of_lt_succ (Nat.lt_succ_of_le (spanChar_length _ _)))

theorem stdAt_length (l pre rest : List Char) (std : Std)
    (h : stdAt l = some (pre, std, rest)) : rest.length < l.length := by
  cases l with
  | nil => simp [stdAt] at h
  | cons c tail =>
    have hlen : (c :: tail).length = tail.length + 1 := rfl
    rw [stdAt] at h
    dsimp only at h
    by_cases hJ : c = 'J'
    · rw [if_pos hJ] at h; exact stdJ_length _ _ _ _ h
    rw [if_neg hJ] at h
    by_cases hM : c = 'M'
    · rw [if_pos hM] at h; exact stdM_length _ _ _ _ h
    rw [if_neg hM] at h
    by_cases h0 : c = '0'
    · rw [if_pos h0] at h; have := std0_length _ _ _ _ h; omega
    rw [if_neg h0] at h
    by_cases h1 : c = '1'
    · rw [if_pos h1] at h
      cases hd : dropLit "5".data tail with
      | some r => have := dropLit_length _ _ _ hd; simp only [hd] at h; cases h; simp at this; omega
      | none => simp only [hd] at h; cases h; omega
    rw [if_neg h1] at h
    by_cases h2 : c = '2'
    · rw [if_pos h2] at h
      cases hd : dropLit "2006".data (c :: tail) with
      | some r => have := dropLit_length _ _ _ hd; simp only [hd] at h; cases h; simp at this; omega
      | none => simp only [hd] at h; cases h; omega
    rw [if_neg h2] at h
    by_cases hU : c = '_'
    · rw [if_pos hU] at h; have := stdUnder_length _ _ _ _ h; omega
    rw [if_neg hU] at h
    by_cases h3 : c = '3'
    · rw [if_pos h3] at h; cases h; omega
    rw [if_neg h3] at h
    by_cases h4 : c = '4'
    · rw [if_pos h4] at h; cases h; omega
    rw [if_neg h4] at h
    by_cases h5 : c = '5'
    · rw [if_pos h5] at h; cases h; omega
    rw [if_neg h5] at h
    by_cases hP : c = 'P'
    · rw [if_pos hP] at h
      cases hd : dropLit "M".data tail with
      | some r => have := dropLit_length _ _ _ hd; simp only [hd] at h; cases h; simp at this; omega
      | none => simp only [hd] at h; cases h
    rw [if_neg hP] at h
    by_cases hp : c = 'p'
    · rw [if_pos hp] at h
      cases hd : dropLit "m".data tail with
      | some r => have := dropLit_length _ _ _ hd; simp only [hd] at h; cases h; simp at this; omega
      | none => simp only [hd] at h; cases h
    rw [if_neg hp] at h
    by_cases hm : c = '-'
    · rw [if_pos hm] at h; exact stdMinus_length _ _ _ _ h
    rw [if_neg hm] at h
    by_cases hZ : c = 'Z'
    · rw [if_pos hZ] at h; exact stdZ_length _ _ _ _ h
    rw [if_neg hZ] at h
    by_cases hF : c = '.' ∨ c = ','
    · rw [if_pos hF] at h; have := stdFrac_length _ _ _ _ _ h; omega
    rw [if_neg hF] at h
    cases h

theorem nextStdChunk_length (l : List Char) :
    ∀ (std : Std) (rest : List Char), (nextStdChunk l).2 = some (std, rest) →
      rest.length < l.length := by
  induction l with
  | nil => intro std rest h; simp [nextStdChunk] at h
  | cons c cs ih =>
    intro std rest h
    rw [nextStdChunk] at h
    cases hs : stdAt (c :: cs) with
    | some r =>
      obtain ⟨pre, std1, rest1⟩ := r
      simp only [hs, Option.some.injEq, Prod.mk.injEq] at h
      obtain ⟨rfl, rfl⟩ := h
      exact stdAt_length _ _ _ _ hs
    | none =>
      simp only [hs] at h
      have := ih std rest h
      simp only [List.length_cons]; omega

/-- The loop of `Format` gives the same result with any fuel that is at least the length
of the layout: it ends because the layout is used up, not because the fuel is. -/
theorem formatLoop_fuel (t : Time) (n : Nat) :
    ∀ (m : Nat) (l : List Char), l.length ≤ n → l.length ≤ m →
      formatLoop t n l = formatLoop t m l := by
  induction n with
  | zero =>
    intro m l hn _
    have hl : l = [] := List.length_eq_zero.mp (Nat.le_zero.mp hn)
    subst hl
    cases m <;> simp [formatLoop]
  | succ n ih =>
    intro m l hn hm
    cases l with
    | nil => cases m <;> simp [formatLoop]
    | cons c cs =>
      obtain ⟨m, rfl⟩ : ∃ k, m = k + 1 := ⟨m - 1, by simp at hm; omega⟩
      simp only [formatLoop]
      cases hc : nextStdChunk (c :: cs) with
      | mk pre r =>
        cases r with
        | none => rfl
        | some sr =>
          obtain ⟨std, rest⟩ := sr
          have hlt := nextStdChunk_length (c :: cs) std rest (by rw [hc])
          simp only [List.length_cons] at hlt hn hm
          simp only
          rw [ih m rest (by omega) (by omega)]

/-- The digits of a number do not depend on the fuel, once it exceeds the number. -/
theorem natDigits_fuel (n : Nat) :
    ∀ (m u : Nat) (acc : List Char), u < n → u < m →
      natDigits n u acc = natDigits m u acc := by
  induction n with
  | zero => intro m u acc hn _; omega
  | succ n ih =>
    intro m u acc hn hm
    obtain ⟨m, rfl⟩ : ∃ k, m = k + 1 := ⟨m - 1, by omega⟩
    by_cases h10 : u < 10
    · simp [natDigits, h10]
    · simp only [natDigits, h10, if_false]
      exact ih m (u / 10) _ (by omega) (by omega)

/-- The loop of `path.Clean` gives the same result with any fuel that is at least the
length of the unread path. -/
theorem cleanLoop_fuel (rooted : Bool) (n : Nat) :
    ∀ (m : Nat) (path out : List Char) (dotdot : Nat), path.length ≤ n → path.length ≤ m →
      cleanLoop rooted n path out dotdot = cleanLoop rooted m path out dotdot := by
  induction n with
  | zero =>
    intro m path out dotdot hn _
    have hl : path = [] := List.length_eq_zero.mp (Nat.le_zero.mp hn)
    subst hl
    cases m <;> simp [cleanLoop]
  | succ n ih =>
    intro m path out dotdot hn hm
    cases path with
    | nil => cases m <;> simp [cleanLoop]
    | cons c rest =>
      obtain ⟨m, rfl⟩ : ∃ k, m = k + 1 := ⟨m - 1, by simp at hm; omega⟩
      simp only [List.length_cons] at hn hm
      have htail : rest.tail.length ≤ rest.length := by simp
      have hdrop : (rest.dropWhile (fun x => x != '/')).length ≤ rest.length :=
        (List.dropWhile_sublist _).length_le
      simp only [cleanLoop]
      split
      · exact ih m rest _ _ (by omega) (by omega)
      split
      · exact ih m rest _ _ (by omega) (by omega)
      split
      · split
        · exact ih m _ _ _ (by omega) (by omega)
        split
        · exact ih m _ _ _ (by omega) (by omega)
        · exact ih m _ _ _ (by omega) (by omega)
      · exact ih m _ _ _ (by omega) (by omega)

/-! ## Layouts without fractional seconds -/

theorem dropLit_eq (p s rest : List Char) (h : dropLit p s = some rest) : s = p ++ rest := by
  induction p generalizing s with
  | nil => simp [dropLit] at h; simp [h]
  | cons a ps ih =>
    cases s with
    | nil => simp [dropLit] at h
    | cons c cs =>
      by_cases hac : a = c
      · simp only [dropLit, hac, if_true] at h
        rw [ih cs h, hac]; rfl
      · simp [dropLit, hac] at h

theorem dropLit_suffix (p s rest : List Char) (h : dropLit p s = some rest) : rest <:+ s :=
  ⟨p, (dropLit_eq p s rest h).symm⟩

theorem spanChar_suffix (ch : Char) (l : List Char) : (spanChar ch l).2 <:+ l := by
  induction l with
  | nil => simp [spanChar]
  | cons c cs ih =>
    by_cases h : c = ch
    · simp only [spanChar, h, if_true]
      exact ih.trans (List.suffix_cons _ _)
    · simp [spanChar, h]

theorem stdJ_plain (l pre rest : List Char) (std : Std)
    (h : stdJ l = some (pre, std, rest)) : rest <:+ l ∧ std.isFrac = false := by
  unfold stdJ at h
  repeat' split at h
  all_goals first
    | (cases h; done)
    | (cases h; exact ⟨dropLit_suffix _ _ _ (by assumption), rfl⟩)

theorem stdM_plain (l pre rest : List Char) (std : Std)
    (h : stdM l = some (pre, std, rest)) : rest <:+ l ∧ std.isFrac = false := by
  unfold stdM at h
  repeat' split at h
  all_goals first
    | (cases h; done)
    | (cases h; exact ⟨dropLit_suffix _ _ _ (by assumption), rfl⟩)

theorem std0_plain (tail pre rest : List Char) (std : Std)
    (h : std0 tail = some (pre, std, rest)) : rest <:+ tail ∧ std.isFrac = false := by
  unfold std0 at h
  cases tail with
  | nil => simp at h
  | cons d t =>
    simp only at h
    repeat' split at h
    all_goals first
      | (cases h; done)
      | (cases h; exact ⟨List.suffix_cons _ _, rfl⟩)
      | (cases h; exact ⟨dropLit_suffix _ _ _ (by assumption), rfl⟩)

theorem stdUnder_plain (tail pre rest : List Char) (std : Std)
    (h : stdUnder tail = some (pre, std, rest)) : rest <:+ tail ∧ std.isFrac = false := by
  unfold stdUnder at h
  repeat' split at h
  all_goals first
    | (cases h; done)
    | (cases h; exact ⟨dropLit_suffix _ _ _ (by assumption), rfl⟩)

theorem stdMinus_plain (l pre rest : List Char) (std : Std)
    (h : stdMinus l = some (pre, std, rest)) : rest <:+ l ∧ std.isFrac = false := by
  unfold stdMinus at h
  repeat' split at h
  all_goals first
    | (cases h; done)
    | (cases h; exact ⟨dropLit_suffix _ _ _ (by assumption), rfl⟩)

theorem stdZ_plain (l pre rest : List Char) (std : Std)
    (h : stdZ l = some (pre, std, rest)) : rest <:+ l ∧ std.isFrac = false := by
  unfold stdZ at h
  repeat' split at h
  all_goals first
    | (cases h; done)
    | (cases h; exact ⟨dropLit_suffix _ _ _ (by assumption), rfl⟩)

theorem stdFrac_suffix (c : Char) (tail pre rest : List Char) (std : Std)
    (h : stdFrac c tail = some (pre, std, rest)) : rest <:+ tail := by
  unfold stdFrac at h
  cases tail with
  | nil => simp at h
  | cons ch t =>
    simp only at h
    repeat' split at h
    all_goals first
      | (cases h; done)
      | (cases h; exact spanChar_suffix _ _)

/-- The element found at the head of a layout leaves a suffix of the layout, and it is a
fractional second only if the layout starts with a dot or a comma. -/
theorem stdAt_plain (l pre rest : List Char) (std : Std)
    (h : stdAt l = some (pre, std, rest)) :
    rest <:+ l ∧ (std.isFrac = true → '.' ∈ l ∨ ',' ∈ l) := by
  cases l with
  | nil => simp [stdAt] at h
  | cons c tail =>
    have hsuf : tail <:+ c :: tail := List.suffix_cons _ _
    have plain : ∀ {r : List Char} {st : Std}, r <:+ c :: tail ∧ st.isFrac = false →
        r <:+ c :: tail ∧ (st.isFrac = true → '.' ∈ c :: tail ∨ ',' ∈ c :: tail) :=
      fun hp => ⟨hp.1, fun hf => by rw [hp.2] at hf; cases hf⟩
    have plainTail : ∀ {r : List Char} {st : Std}, r <:+ tail ∧ st.isFrac = false →
        r <:+ c :: tail ∧ (st.isFrac = true → '.' ∈ c :: tail ∨ ',' ∈ c :: tail) :=
      fun hp => plain ⟨hp.1.trans hsuf, hp.2⟩
    rw [stdAt] at h
    dsimp only at h
    by_cases hJ : c = 'J'
    · rw [if_pos hJ] at h; exact plain (stdJ_plain _ _ _ _ h)
    rw [if_neg hJ] at h
    by_cases hM : c = 'M'
    · rw [if_pos hM] at h; exact plain (stdM_plain _ _ _ _ h)
    rw [if_neg hM] at h
    by_cases h0 : c = '0'
    · rw [if_pos h0] at h; exact plainTail (std0_plain _ _ _ _ h)
    rw [if_neg h0] at h
    by_cases h1 : c = '1'
    · rw [if_pos h1] at h
      cases hd : dropLit "5".data tail with
      | some r =>
        simp only [hd] at h; cases h
        exact plainTail ⟨dropLit_suffix _ _ _ hd, rfl⟩
      | none => simp only [hd] at h; cases h; exact plainTail ⟨List.suffix_refl _, rfl⟩
    rw [if_neg h1] at h
    by_cases h2 : c = '2'
    · rw [if_pos h2] at h
      cases hd : dropLit "2006".data (c :: tail) with
      | some r =>
        simp only [hd] at h; cases h
        exact plain ⟨dropLit_suffix _ _ _ hd, rfl⟩
      | none => simp only [hd] at h; cases h; exact plainTail ⟨List.suffix_refl _, rfl⟩
    rw [if_neg h2] at h
    by_cases hU : c = '_'
    · rw [if_pos hU] at h; exact plainTail (stdUnder_plain _ _ _ _ h)
    rw [if_neg hU] at h
    by_cases h3 : c = '3'
    · rw [if_pos h3] at h; cases h; exact plainTail ⟨List.suffix_refl _, rfl⟩
    rw [if_neg h3] at h
    by_cases h4 : c = '4'
    · rw [if_pos h4] at h; cases h; exact plainTail ⟨List.suffix_refl _, rfl⟩
    rw [if_neg h4] at h
    by_cases h5 : c = '5'
    · rw [if_pos h5] at h; cases h; exact plainTail ⟨List.suffix_refl _, rfl⟩
    rw [if_neg h5] at h
    by_cases hP : c = 'P'
    · rw [if_pos hP] at h
      cases hd : dropLit "M".data tail with
      | some r =>
        simp only [hd] at h; cases h
        exact plainTail ⟨dropLit_suffix _ _ _ hd, rfl⟩
      | none => simp only [hd] at h; cases h
    rw [if_neg hP] at h
    by_cases hp : c = 'p'
    · rw [if_pos hp] at h
      cases hd : dropLit "m".data tail with
      | some r =>
        simp only [hd] at h; cases h
        exact plainTail ⟨dropLit_suffix _ _ _ hd, rfl⟩
      | none => simp only [hd] at h; cases h
    rw [if_neg hp] at h
    by_cases hm : c = '-'
    · rw [if_pos hm] at h; exact plain (stdMinus_plain _ _ _ _ h)
    rw [if_neg hm] at h
    by_cases hZ : c = 'Z'
    · rw [if_pos hZ] at h; exact plain (stdZ_plain _ _ _ _ h)
    rw [if_neg hZ] at h
    by_cases hF : c = '.' ∨ c = ','
    · rw [if_pos hF] at h
      refine ⟨(stdFrac_suffix _ _ _ _ _ h).trans hsuf, fun _ => ?_⟩
      rcases hF with rfl | rfl
      · exact Or.inl (List.mem_cons_self _ _)
      · exact Or.inr (List.mem_cons_self _ _)
    rw [if_neg hF] at h
    cases h

theorem nextStdChunk_plain (l : List Char) :
    ∀ (std : Std) (rest : List Char), (nextStdChunk l).2 = some (std, rest) →
      rest <:+ l ∧ (std.isFrac = true → '.' ∈ l ∨ ',' ∈ l) := by
  induction l with
  | nil => intro std rest h; simp [nextStdChunk] at h
  | cons c cs ih =>
    intro std rest h
    rw [nextStdChunk] at h
    cases hs : stdAt (c :: cs) with
    | some r =>
      obtain ⟨pre, std1, rest1⟩ := r
      simp only [hs, Option.some.injEq, Prod.mk.injEq] at h
      obtain ⟨rfl, rfl⟩ := h
      exact stdAt_plain _ _ _ _ hs
    | none =>
      simp only [hs] at h
      obtain ⟨hsuf, hfrac⟩ := ih std rest h
      refine ⟨hsuf.trans (List.suffix_cons _ _), fun hf => ?_⟩
      rcases hfrac hf with hdot | hcomma
      · exact Or.inl (List.mem_cons_of_mem _ hdot)
      · exact Or.inr (List.mem_cons_of_mem _ hcomma)

/-- An element that is not a fractional second is written without the nanoseconds. -/
theorem appendStd_nanosecond (t : Time) (k : Nat) (std : Std) (h : std.isFrac = false) :
    appendStd { t with nanosecond := k } std = appendStd t std := by
  cases std <;> first | rfl | (simp [Std.isFrac] at h)

/-- On a layout without dot and comma the rendering does not read the nanoseconds. -/
theorem formatLoop_nanosecond (t : Time) (k : Nat) (fuel : Nat) :
    ∀ l : List Char, '.' ∉ l → ',' ∉ l →
      formatLoop { t with nanosecond := k } fuel l = formatLoop t fuel l := by
  induction fuel with
  | zero => intro l _ _; simp [formatLoop]
  | succ fuel ih =>
    intro l hdot hcomma
    cases l with
    | nil => simp [formatLoop]
    | cons c cs =>
      simp only [formatLoop]
      cases hc : nextStdChunk (c :: cs) with
      | mk pre r =>
        cases r with
        | none => rfl
        | some sr =>
          obtain ⟨std, rest⟩ := sr
          obtain ⟨hsuf, hfrac⟩ := nextStdChunk_plain (c :: cs) std rest (by rw [hc])
          have hplain : std.isFrac = false := by
            cases hf : std.isFrac with
            | false => rfl
            | true =>
              rcases hfrac hf with h1 | h1
              · exact absurd h1 hdot
              · exact absurd h1 hcomma
          simp only
          rw [appendStd_nanosecond t k std hplain,
            ih rest (fun hm => hdot (hsuf.subset hm)) (fun hm => hcomma (hsuf.subset hm))]

/-- For a format without dot and comma the name does not depend on the nanoseconds: two
clock readings within the same second give the same name. -/
theorem formatIfTimeFormat_nanosecond (now : Time) (k : Nat) (format : String)
    (hdot : '.' ∉ format.data) (hcomma : ',' ∉ format.data) :
    formatIfTimeFormat { now with nanosecond := k } format = formatIfTimeFormat now format := by
  simp only [formatIfTimeFormat, Time.Format]
  rw [formatLoop_nanosecond now k _ format.data hdot hcomma]

/-! ## The library models on documented examples -/

/-- The examples of the documentation of `path.Clean` and `path.Join`. -/
theorem pathClean_examples :
    pathClean "a/c" = "a/c" ∧ pathClean "a//c" = "a/c" ∧ pathClean "a/c/." = "a/c" ∧
    pathClean "a/c/b/.." = "a/c" ∧ pathClean "/../a/c" = "/a/c" ∧
    pathClean "/../a/b/../././/c" = "/a/c" ∧ pathClean "" = "." ∧
    pathClean "abc/../../././../def" = "../../def" ∧
    pathJoin "a" "b/c" = "a/b/c" ∧ pathJoin "a/b" "../../../xyz" = "../xyz" ∧
    pathJoin "" "" = "" ∧ pathJoin "a" "" = "a" ∧ pathJoin "" "a" = "a" := by
  decide

/-- The layouts `RFC3339`, `ANSIC`, `Kitchen` and `StampMicro` of package `time` at the
sample clock reading. -/
theorem Format_examples :
    sampleTime.Format "2006-01-02T15:04:05Z07:00" = "2024-03-05T10:15:30Z" ∧
    sampleTime.Format "Mon Jan _2 15:04:05 2006" = "Tue Mar  5 10:15:30 2024" ∧
    sampleTime.Format "3:04PM" = "10:15AM" ∧
    sampleTime.Format "Jan _2 15:04:05.000000" = "Mar  5 10:15:30.123456" := by
  decide

/-! ## Lemmas on the filesystem -/

theorem lookup_filter_ne (key k : List String) (l : List (List String × Node))
    (h : key ≠ k) :
    (l.filter (fun e => e.1 != k)).lookup key = l.lookup key := by
  induction l with
  | nil => rfl
  | cons e l ih =>
    obtain ⟨a, n⟩ := e
    by_cases hak : a = k
    · subst hak
      have hka : (key == a) = false := by simpa using h
      simp [List.filter, List.lookup, hka, ih]
    · have hne : (a != k) = true := by simpa using hak
      simp only [List.filter, hne, List.lookup]
      rw [ih]

theorem lookup_set (fs : FileSystem) (k key : List String) (v : Node) :
    (fs.set k v).lookup key =
      if key = [] then some .dir else if key = k then some v else fs.lookup key := by
  by_cases h0 : key = []
  · simp [FileSystem.lookup, h0]
  · by_cases hk : key = k
    · subst hk
      simp [FileSystem.lookup, FileSystem.set, h0, List.lookup]
    · have hb : (key == k) = false := by simpa using hk
      simp [FileSystem.lookup, FileSystem.set, h0, hk, List.lookup, hb, lookup_filter_ne key k _ hk]

/-- Adding an entry under a fresh key keeps every entry there was. -/
theorem lookup_set_of_fresh (fs : FileSystem) (k : List String) (v : Node)
    (hfresh : fs.lookup k = none) (key : List String) (n : Node)
    (h : fs.lookup key = some n) : (fs.set k v).lookup key = some n := by
  rw [lookup_set]
  by_cases h0 : key = []
  · simp [FileSystem.lookup, h0] at h
    simp [h0, h]
  · by_cases hk : key = k
    · subst hk; rw [hfresh] at h; cases h
    · simp [h0, hk, h]

theorem walk_mono (fs fs1 : FileSystem)
    (hmono : ∀ key n, fs.lookup key = some n → fs1.lookup key = some n)
    (cs : List String) :
    ∀ (cur r : List String), fs.walk cur cs = .ok r → fs1.walk cur cs = .ok r := by
  induction cs with
  | nil => intro cur r h; simpa [FileSystem.walk] using h
  | cons c cs ih =>
    intro cur r h
    rw [FileSystem.walk] at h
    cases hl : fs.lookup cur with
    | none => simp [hl] at h
    | some n =>
      cases n with
      | file content => simp [hl] at h
      | dir =>
        simp only [hl] at h
        rw [FileSystem.walk, hmono cur .dir hl]
        exact ih _ _ h

theorem walk_append (fs : FileSystem) (xs ys : List String) :
    ∀ (cur mid : List String), fs.walk cur xs = .ok mid →
      fs.walk cur (xs ++ ys) = fs.walk mid ys := by
  induction xs with
  | nil =>
    intro cur mid h
    simp only [FileSystem.walk, Except.ok.injEq] at h
    simp [h]
  | cons c cs ih =>
    intro cur mid h
    rw [FileSystem.walk] at h
    cases hl : fs.lookup cur with
    | none => simp [hl] at h
    | some n =>
      cases n with
      | file content => simp [hl] at h
      | dir =>
        simp only [hl] at h
        rw [List.cons_append, FileSystem.walk]
        simp only [hl]
        exact ih _ _ h

theorem resolve_mono (fs fs1 : FileSystem) (hcwd : fs1.cwd = fs.cwd)
    (hmono : ∀ key n, fs.lookup key = some n → fs1.lookup key = some n)
    (name : String) (key : List String) (n : Node)
    (h : fs.resolve name = .ok (key, n)) : fs1.resolve name = .ok (key, n) := by
  unfold FileSystem.resolve at h ⊢
  by_cases he : name = ""
  · simp [he] at h
  · simp only [he, if_false] at h ⊢
    have hstart : fs1.start name = fs.start name := by simp [FileSystem.start, hcwd]
    cases hw : fs.walk (fs.start name) (components name) with
    | error e => simp [hw] at h
    | ok k =>
      simp only [hw] at h
      cases hl : fs.lookup k with
      | none => simp [hl] at h
      | some node =>
        simp only [hl, Except.ok.injEq, Prod.mk.injEq] at h
        obtain ⟨rfl, rfl⟩ := h
        rw [hstart, walk_mono fs fs1 hmono _ _ _ hw]
        simp [hmono k node hl]

theorem resolve_lookup (fs : FileSystem) (name : String) (key : List String) (n : Node)
    (h : fs.resolve name = .ok (key, n)) : fs.lookup key = some n := by
  unfold FileSystem.resolve at h
  by_cases he : name = ""
  · simp [he] at h
  · simp only [he, if_false] at h
    cases hw : fs.walk (fs.start name) (components name) with
    | error e => simp [hw] at h
    | ok k =>
      simp only [hw] at h
      cases hl : fs.lookup k with
      | none => simp [hl] at h
      | some node =>
        simp only [hl, Except.ok.injEq, Prod.mk.injEq] at h
        obtain ⟨rfl, rfl⟩ := h
        exact hl

/-- What `exists` answers, in terms of path resolution. -/
theorem existsAt_eq (fs : FileSystem) (p : String) :
    existsAt fs p =
      match fs.resolve p with
      | .ok (_, .file content) => (true, some { size := content.length, isDir := false })
      | .ok (_, .dir) => (true, some { size := 0, isDir := true })
      | .error _ => (false, none) := by
  cases hr : fs.resolve p with
  | error e => simp [existsAt, osOpen, hr]
  | ok kn =>
    obtain ⟨key, n⟩ := kn
    have hl := resolve_lookup fs p key n hr
    cases n <;> simp [existsAt, osOpen, hr, File.Stat, hl]

theorem isDir_eq_true_iff (fs : FileSystem) (p : String) :
    isDir fs p = true ↔ ∃ key, fs.resolve p = .ok (key, .dir) := by
  unfold isDir
  rw [existsAt_eq]
  cases hr : fs.resolve p with
  | error e => simp
  | ok kn =>
    obtain ⟨key, n⟩ := kn
    cases n <;> simp

theorem existsAt_fst_eq_true_iff (fs : FileSystem) (p : String) :
    (existsAt fs p).1 = true ↔ ∃ key n, fs.resolve p = .ok (key, n) := by
  rw [existsAt_eq]
  cases hr : fs.resolve p with
  | error e => simp
  | ok kn =>
    obtain ⟨key, n⟩ := kn
    cases n <;> simp

/-- A successful `os.Create` at a path that names no entry adds an empty file in an
existing directory, keeps everything else, and the path then resolves to the new file. -/
theorem osCreate_fresh (fs fs1 : FileSystem) (name : String) (f : File)
    (hnone : ∀ key n, fs.resolve name ≠ .ok (key, n))
    (h : osCreate fs name = .ok (fs1, f)) :
    ∃ key, fs.lookup key = none ∧ fs1 = fs.set key (.file []) ∧
      f = { name := name, key := key } ∧ fs1.resolve name = .ok (key, .file []) := by
  unfold osCreate at h
  cases hr : fs.resolve name with
  | ok kn => exact absurd hr (hnone kn.1 kn.2)
  | error e =>
    simp only [hr] at h
    by_cases he : name = ""
    · simp [he] at h
    · simp only [he, if_false] at h
      cases hw : fs.walk (fs.start name) (components name).dropLast with
      | error e1 => simp [hw] at h
      | ok parent =>
        cases hlast : (components name).getLast? with
        | none => simp [hw, hlast] at h
        | some last =>
          simp only [hw, hlast] at h
          by_cases hspecial : last = "" ∨ last = "." ∨ last = ".."
          · simp [hspecial] at h
          · simp only [hspecial, if_false] at h
            cases hp : fs.lookup parent with
            | none => simp [hp] at h
            | some pn =>
              cases pn with
              | file content => simp [hp] at h
              | dir =>
                cases hk : fs.lookup (parent ++ [last]) with
                | some kn => simp [hp, hk] at h
                | none =>
                  simp only [hp, hk, Except.ok.injEq, Prod.mk.injEq] at h
                  obtain ⟨hfs, hf⟩ := h
                  refine ⟨parent ++ [last], hk, hfs.symm, hf.symm, ?_⟩
                  subst hfs
                  have hmono := lookup_set_of_fresh fs (parent ++ [last]) (.file []) hk
                  have hnames : (components name).dropLast ++ [last] = components name :=
                    List.dropLast_append_getLast? last (by simp [hlast])
                  have hstep : stepInto parent last = parent ++ [last] := by
                    have h1 : last ≠ "" := fun hh => hspecial (Or.inl hh)
                    have h2 : last ≠ "." := fun hh => hspecial (Or.inr (Or.inl hh))
                    have h3 : last ≠ ".." := fun hh => hspecial (Or.inr (Or.inr hh))
                    simp [stepInto, h1, h2, h3]
                  have hw1 := walk_mono fs _ hmono _ _ _ hw
                  have hwalk : (fs.set (parent ++ [last]) (.file [])).walk (fs.start name)
                      (components name) = .ok (parent ++ [last]) := by
                    rw [← hnames, walk_append _ _ _ _ _ hw1, FileSystem.walk,
                      hmono parent .dir hp]
                    simp [FileSystem.walk, hstep]
                  have hstart : (fs.set (parent ++ [last]) (.file [])).start name
                      = fs.start name := rfl
                  unfold FileSystem.resolve
                  simp only [he, if_false, hstart, hwalk]
                  rw [lookup_set]
                  simp

/-! ## The naming policy: claims -/

/-- C7: a format whose digit runs, concatenated in order of occurrence, do not contain
`20060102150405` is returned unchanged by `formatIfTimeFormat`, whatever the clock reads:
the result does not depend on the time and nothing is substituted. -/
theorem formatIfTimeFormat_literal (now : Time) (format : String)
    (h : ¬ referenceDigits <:+: (digitsOf format).data) :
    formatIfTimeFormat now format = format := by
  have hc : containsSub referenceDigits (digitsOf format).data = false := by
    rw [← Bool.not_eq_true, containsSub_iff]; exact h
  simp [formatIfTimeFormat, hc]

/-- Instance of C7: thirteen of the fourteen reference digits, read at `sampleTime`. -/
theorem formatIfTimeFormat_literal_witness :
    (¬ referenceDigits <:+: (digitsOf "dump-2006-01-02_15-04-0").data) ∧
      formatIfTimeFormat sampleTime "dump-2006-01-02_15-04-0" = "dump-2006-01-02_15-04-0" :=
  ⟨by rw [← containsSub_iff]; decide,
   formatIfTimeFormat_literal sampleTime "dump-2006-01-02_15-04-0"
     (by rw [← containsSub_iff]; decide)⟩

/-- C8: for a format whose digits, all other characters removed, contain
`20060102150405`, `formatIfTimeFormat` is `now.Format(format)`, also when other characters
stand between the reference digits (the digit runs concatenated are the format without
its non-digits). For the format `20060102150405` the result is year, month, day, hour,
minute and second zero-padded, fourteen digits for a year from 0 to 9999, and
`backup-20060102150405` at 2024-03-05T10:15:30 gives `backup-20240305101530`. -/
theorem formatIfTimeFormat_time (now : Time) (format : String)
    (h : referenceDigits <:+: format.data.filter isDigit) :
    (digitsOf format).data = format.data.filter isDigit ∧
    formatIfTimeFormat now format = now.Format format ∧
    formatIfTimeFormat now "20060102150405" =
      String.mk (appendInt now.year 4 ++ appendInt now.month 2 ++ appendInt now.day 2
        ++ appendInt now.hour 2 ++ appendInt now.minute 2 ++ appendInt now.second 2) ∧
    (0 ≤ now.year → now.year ≤ 9999 → now.month ≤ 12 → now.day ≤ 31 → now.hour < 24 →
      now.minute < 60 → now.second < 60 →
      (formatIfTimeFormat now "20060102150405").length = 14 ∧
      ∀ c ∈ (formatIfTimeFormat now "20060102150405").data, isDigit c = true) ∧
    (now.year = 2024 → now.month = 3 → now.day = 5 → now.hour = 10 → now.minute = 15 →
      now.second = 30 →
      formatIfTimeFormat now "backup-20060102150405" = "backup-20240305101530") := by
  have href : formatIfTimeFormat now "20060102150405" =
      String.mk (appendInt now.year 4 ++ appendInt now.month 2 ++ appendInt now.day 2
        ++ appendInt now.hour 2 ++ appendInt now.minute 2 ++ appendInt now.second 2) := by
    rw [← format_reference]; rfl
  refine ⟨digitsOf_data format, ?_, href, ?_, ?_⟩
  · have hc : containsSub referenceDigits (digitsOf format).data = true := by
      rw [containsSub_iff, digitsOf_data]; exact h
    simp [formatIfTimeFormat, hc]
  · intro hy0 hy hmo hd hh hmi hs
    obtain ⟨y, hyy⟩ : ∃ y : Nat, now.year = (y : Int) := ⟨now.year.toNat, by omega⟩
    have h4 := appendInt_nat y 4 (by norm_num) (by omega)
    have hmo2 := appendInt_nat now.month 2 (by norm_num) (by omega)
    have hd2 := appendInt_nat now.day 2 (by norm_num) (by omega)
    have hh2 := appendInt_nat now.hour 2 (by norm_num) (by omega)
    have hmi2 := appendInt_nat now.minute 2 (by norm_num) (by omega)
    have hs2 := appendInt_nat now.second 2 (by norm_num) (by omega)
    rw [href, hyy]
    constructor
    · simp only [String.length, List.length_append, h4.1, hmo2.1, hd2.1, hh2.1, hmi2.1, hs2.1]
    · intro c hc
      simp only [List.mem_append] at hc
      rcases hc with ((((hc | hc) | hc) | hc) | hc) | hc
      · exact h4.2 c hc
      · exact hmo2.2 c hc
      · exact hd2.2 c hc
      · exact hh2.2 c hc
      · exact hmi2.2 c hc
      · exact hs2.2 c hc
  · intro hy hmo hd hh hmi hs
    have hb : formatIfTimeFormat now "backup-20060102150405" =
        String.mk ("backup-".data ++ (appendInt now.year 4 ++ (appendInt now.month 2
          ++ (appendInt now.day 2 ++ (appendInt now.hour 2 ++ (appendInt now.minute 2
          ++ (appendInt now.second 2 ++ []))))))) := rfl
    rw [hb, hy, hmo, hd, hh, hmi, hs]
    decide

/-- Instance of C8: the reference digits separated by other characters, and the two
named formats, at `sampleTime`. -/
theorem formatIfTimeFormat_time_witness :
    referenceDigits <:+: "2006-01-02_15.04.05".data.filter isDigit ∧
      formatIfTimeFormat sampleTime "2006-01-02_15.04.05" = "2024-03-05_10.15.30" ∧
      (formatIfTimeFormat sampleTime "20060102150405").length = 14 ∧
      formatIfTimeFormat sampleTime "backup-20060102150405" = "backup-20240305101530" :=
  ⟨by rw [← containsSub_iff]; decide,
   (formatIfTimeFormat_time sampleTime "2006-01-02_15.04.05"
     (by rw [← containsSub_iff]; decide)).2.1.trans (by decide),
   ((formatIfTimeFormat_time sampleTime "2006-01-02_15.04.05"
     (by rw [← containsSub_iff]; decide)).2.2.2.1
     (by decide) (by decide) (by decide) (by decide) (by decide) (by decide) (by decide)).1,
   (formatIfTimeFormat_time sampleTime "2006-01-02_15.04.05"
     (by rw [← containsSub_iff]; decide)).2.2.2.2 rfl rfl rfl rfl rfl rfl⟩

/-! ## `Register`: claims -/

/-- C5: when `dir` does not exist, or names an entry that is not a directory, `Register`
returns a nil session and the error `Invalid directory`, and leaves the filesystem as it
was, for every format. -/
theorem Register_invalid_directory (fs : FileSystem) (now : Time) (db : Option DB)
    (dir format : String)
    (h : (∃ e, fs.resolve dir = .error e) ∨ (∃ key content, fs.resolve dir = .ok (key, .file content))) :
    Register fs now db dir format =
      { fs := fs, data := none, err := some (.new "Invalid directory") } := by
  have hd : isDir fs dir = false := by
    rw [← Bool.not_eq_true, isDir_eq_true_iff]
    rintro ⟨key, hk⟩
    rcases h with ⟨e, he⟩ | ⟨k, c, hc⟩
    · rw [he] at hk; cases hk
    · rw [hc] at hk; cases hk
  simp [Register, hd]

/-- Instance of C5: `/tmp/missing` does not exist. -/
theorem Register_invalid_directory_witness :
    Register sampleFS sampleTime (some sampleDB) "/tmp/missing" "backup-20060102150405" =
      { fs := sampleFS, data := none, err := some (.new "Invalid directory") } :=
  Register_invalid_directory sampleFS sampleTime (some sampleDB) "/tmp/missing"
    "backup-20060102150405" (Or.inl ⟨.ENOENT, rfl⟩)

/-- C1, as the code has it: when `dir` is a directory and an entry exists at
`path.Join(dir, formatIfTimeFormat(format) + ".sql")`, `Register` returns a nil session
and the error that the dump already exists, and the filesystem is as it was. A second
call with the same arguments after a successful one fails with that error whenever the
format resolves to the same name as in the first call; within the same second it does
so for every format that contains neither a dot nor a comma. -/
theorem Register_already_exists (fs : FileSystem) (now : Time) (db : Option DB)
    (dir format : String) (hd : ∃ key, fs.resolve dir = .ok (key, .dir)) :
    ((∃ key n, fs.resolve (pathJoin dir (formatIfTimeFormat now format ++ ".sql")) = .ok (key, n)) →
      Register fs now db dir format =
        { fs := fs, data := none,
          err := some (.new ("Dump '"
            ++ pathJoin dir (formatIfTimeFormat now format ++ ".sql") ++ "' already exists.")) }) ∧
    (∀ later : Time, (Register fs now db dir format).err = none →
      formatIfTimeFormat later format = formatIfTimeFormat now format →
      Register (Register fs now db dir format).fs later db dir format =
        { fs := (Register fs now db dir format).fs, data := none,
          err := some (.new ("Dump '"
            ++ pathJoin dir (formatIfTimeFormat now format ++ ".sql") ++ "' already exists.")) }) ∧
    (∀ k : Nat, '.' ∉ format.data → ',' ∉ format.data →
      (Register fs now db dir format).err = none →
      Register (Register fs now db dir format).fs { now with nanosecond := k } db dir format =
        { fs := (Register fs now db dir format).fs, data := none,
          err := some (.new ("Dump '"
            ++ pathJoin dir (formatIfTimeFormat now format ++ ".sql") ++ "' already exists.")) }) := by
  have hdir : isDir fs dir = true := (isDir_eq_true_iff fs dir).mpr hd
  have key_fact : ∀ (fs0 : FileSystem) (t : Time), isDir fs0 dir = true →
      (∃ key n, fs0.resolve (pathJoin dir (formatIfTimeFormat t format ++ ".sql")) = .ok (key, n)) →
      Register fs0 t db dir format =
        { fs := fs0, data := none,
          err := some (.new ("Dump '"
            ++ pathJoin dir (formatIfTimeFormat t format ++ ".sql") ++ "' already exists.")) } := by
    intro fs0 t h0 he
    have hex := (existsAt_fst_eq_true_iff fs0 _).mpr he
    simp [Register, h0, hex]
  have second : ∀ later : Time, (Register fs now db dir format).err = none →
      formatIfTimeFormat later format = formatIfTimeFormat now format →
      Register (Register fs now db dir format).fs later db dir format =
        { fs := (Register fs now db dir format).fs, data := none,
          err := some (.new ("Dump '"
            ++ pathJoin dir (formatIfTimeFormat now format ++ ".sql") ++ "' already exists.")) } := ?_
  · exact ⟨key_fact fs now hdir, second, fun k hdot hcomma hok =>
      second _ hok (formatIfTimeFormat_nanosecond now k format hdot hcomma)⟩
  intro later hok hsame
  by_cases hex : (existsAt fs (pathJoin dir (formatIfTimeFormat now format ++ ".sql"))).1 = true
  · simp [Register, hdir, hex] at hok
  · cases hc : osCreate fs (pathJoin dir (formatIfTimeFormat now format ++ ".sql")) with
    | error e => simp [Register, hdir, hex, hc] at hok
    | ok r =>
      obtain ⟨fs1, f⟩ := r
      have hfs : (Register fs now db dir format).fs = fs1 := by
        simp [Register, hdir, hex, hc]
      have hnone : ∀ key n,
          fs.resolve (pathJoin dir (formatIfTimeFormat now format ++ ".sql")) ≠ .ok (key, n) := by
        intro key n hk
        exact hex ((existsAt_fst_eq_true_iff fs _).mpr ⟨key, n, hk⟩)
      obtain ⟨key, hfresh, hset, _, hres⟩ := osCreate_fresh fs fs1 _ f hnone hc
      obtain ⟨kd, hkd⟩ := hd
      have hmono := lookup_set_of_fresh fs key (.file []) hfresh
      have hd1 : isDir fs1 dir = true := by
        rw [isDir_eq_true_iff, hset]
        exact ⟨kd, resolve_mono fs (fs.set key (.file [])) rfl hmono dir kd .dir hkd⟩
      rw [hfs]
      have := key_fact fs1 later hd1 (by rw [hsame]; exact ⟨key, _, hres⟩)
      rw [this, hsame]

/-- Instance of C1: `/tmp/dumps/backup.sql` exists; and a second call in the same second
after a successful call in the empty directory, with a format without dot and comma. -/
theorem Register_already_exists_witness :
    Register sampleFSWithDump sampleTime (some sampleDB) "/tmp/dumps" "backup" =
      { fs := sampleFSWithDump, data := none,
        err := some (.new "Dump '/tmp/dumps/backup.sql' already exists.") } ∧
    Register
      (Register sampleFS sampleTime (some sampleDB) "/tmp/dumps" "backup-20060102150405").fs
      { sampleTime with nanosecond := 987654321 } (some sampleDB) "/tmp/dumps"
      "backup-20060102150405" =
      { fs := sampleFS.set ["tmp", "dumps", "backup-20240305101530.sql"] (.file []),
        data := none,
        err := some (.new "Dump '/tmp/dumps/backup-20240305101530.sql' already exists.") } :=
  ⟨(Register_already_exists sampleFSWithDump sampleTime (some sampleDB) "/tmp/dumps" "backup"
      ⟨["tmp", "dumps"], rfl⟩).1 ⟨["tmp", "dumps", "backup.sql"], .file [45, 45, 10], rfl⟩,
   (Register_already_exists sampleFS sampleTime (some sampleDB) "/tmp/dumps"
      "backup-20060102150405" ⟨["tmp", "dumps"], rfl⟩).2.2 987654321 (by decide) (by decide)
      (by decide)⟩

/-- C1 fails as stated: with the layout `20060102150405.000` two calls in the same
second, at different milliseconds, both succeed, each creating its own file. -/
theorem Register_same_second_both_succeed :
    (Register sampleFS sampleTime (some sampleDB) "/tmp/dumps" "20060102150405.000").err = none ∧
    (Register
      (Register sampleFS sampleTime (some sampleDB) "/tmp/dumps" "20060102150405.000").fs
      { sampleTime with nanosecond := 987654321 } (some sampleDB) "/tmp/dumps"
      "20060102150405.000").err = none ∧
    (Register
      (Register sampleFS sampleTime (some sampleDB) "/tmp/dumps" "20060102150405.000").fs
      { sampleTime with nanosecond := 987654321 } (some sampleDB) "/tmp/dumps"
      "20060102150405.000").fs.entries =
      [(["tmp", "dumps", "20240305101530.987.sql"], .file []),
       (["tmp", "dumps", "20240305101530.123.sql"], .file []),
       (["tmp"], .dir), (["tmp", "dumps"], .dir)] := by
  decide

/-- C6, as the code has it: when `dir` is a directory and no entry exists at
`path.Join(dir, formatIfTimeFormat(format) + ".sql")`, `Register` succeeds if `os.Create`
succeeds at that path: it returns no error and a session whose connection is `db` and
whose output is the created file, and afterwards the path names a file of size 0 that
did not exist before. If `os.Create` fails, `Register` returns a nil session and that
error, and the filesystem is as it was. -/
theorem Register_creates (fs : FileSystem) (now : Time) (db : Option DB)
    (dir format : String) (hd : ∃ key, fs.resolve dir = .ok (key, .dir))
    (hn : ∀ key n,
      fs.resolve (pathJoin dir (formatIfTimeFormat now format ++ ".sql")) ≠ .ok (key, n)) :
    (∀ fs1 f, osCreate fs (pathJoin dir (formatIfTimeFormat now format ++ ".sql")) = .ok (fs1, f) →
      Register fs now db dir format =
        { fs := fs1, data := some { Out := some (.file f), Connection := db }, err := none } ∧
      fs1.resolve (pathJoin dir (formatIfTimeFormat now format ++ ".sql")) = .ok (f.key, .file []) ∧
      existsAt fs1 (pathJoin dir (formatIfTimeFormat now format ++ ".sql")) =
        (true, some { size := 0, isDir := false }) ∧
      existsAt fs (pathJoin dir (formatIfTimeFormat now format ++ ".sql")) = (false, none)) ∧
    (∀ e, osCreate fs (pathJoin dir (formatIfTimeFormat now format ++ ".sql")) = .error e →
      Register fs now db dir format = { fs := fs, data := none, err := some e }) := by
  have hdir : isDir fs dir = true := (isDir_eq_true_iff fs dir).mpr hd
  have hex : (existsAt fs (pathJoin dir (formatIfTimeFormat now format ++ ".sql"))).1 = false := by
    rw [← Bool.not_eq_true, existsAt_fst_eq_true_iff]
    rintro ⟨key, n, hk⟩
    exact hn key n hk
  constructor
  · intro fs1 f hc
    obtain ⟨key, _, _, hf, hres⟩ := osCreate_fresh fs fs1 _ f hn hc
    refine ⟨by simp [Register, hdir, hex, hc], ?_, ?_, ?_⟩
    · rw [hres, hf]
    · rw [existsAt_eq, hres]; rfl
    · rw [existsAt_eq]
      cases hr : fs.resolve (pathJoin dir (formatIfTimeFormat now format ++ ".sql")) with
      | error e => rfl
      | ok kn => exact absurd hr (hn kn.1 kn.2)
  · intro e hc
    simp [Register, hdir, hex, hc]

/-- Instance of C6: the scenario of the empty directory `/tmp/dumps` at
2024-03-05T10:15:30, where `os.Create` succeeds; and the format `sub/backup`, where it
fails because the directory `/tmp/dumps/sub` is missing. -/
theorem Register_creates_witness :
    Register sampleFS sampleTime (some sampleDB) "/tmp/dumps" "backup-20060102150405" =
      { fs := sampleFS.set ["tmp", "dumps", "backup-20240305101530.sql"] (.file []),
        data := some
          { Out := some (.file { name := "/tmp/dumps/backup-20240305101530.sql",
                                 key := ["tmp", "dumps", "backup-20240305101530.sql"] }),
            Connection := some sampleDB },
        err := none } ∧
    existsAt (sampleFS.set ["tmp", "dumps", "backup-20240305101530.sql"] (.file []))
      "/tmp/dumps/backup-20240305101530.sql" = (true, some { size := 0, isDir := false }) ∧
    Register sampleFS sampleTime (some sampleDB) "/tmp/dumps" "sub/backup" =
      { fs := sampleFS, data := none,
        err := some (.pathError "open" "/tmp/dumps/sub/backup.sql" .ENOENT) } :=
  ⟨((Register_creates sampleFS sampleTime (some sampleDB) "/tmp/dumps" "backup-20060102150405"
      ⟨["tmp", "dumps"], rfl⟩ (by intro key n h; cases h)).1 _ _ rfl).1,
   ((Register_creates sampleFS sampleTime (some sampleDB) "/tmp/dumps" "backup-20060102150405"
      ⟨["tmp", "dumps"], rfl⟩ (by intro key n h; cases h)).1 _ _ rfl).2.2.1,
   (Register_creates sampleFS sampleTime (some sampleDB) "/tmp/dumps" "sub/backup"
      ⟨["tmp", "dumps"], rfl⟩ (by intro key n h; cases h)).2 _ rfl⟩

/-- C6 fails as stated: `/tmp/dumps` is a directory and nothing exists at
`/tmp/dumps/a/b.sql`, yet `Register` with the format `a/b` returns a nil session and the
error of `os.Create`, because the directory `/tmp/dumps/a` is missing. -/
theorem Register_create_fails :
    sampleFS.resolve "/tmp/dumps" = .ok (["tmp", "dumps"], .dir) ∧
    pathJoin "/tmp/dumps" (formatIfTimeFormat sampleTime "a/b" ++ ".sql") = "/tmp/dumps/a/b.sql" ∧
    sampleFS.resolve "/tmp/dumps/a/b.sql" = .error .ENOENT ∧
    Register sampleFS sampleTime (some sampleDB) "/tmp/dumps" "a/b" =
      { fs := sampleFS, data := none,
        err := some (.pathError "open" "/tmp/dumps/a/b.sql" .ENOENT) } := by
  refine ⟨rfl, by decide, rfl, by decide⟩

/-- C9, the code at the failing input: with the format `../x` and the directory
`/tmp/dumps`, `Register` succeeds and creates `/tmp/x.sql`, a child of `/tmp` and not of
`/tmp/dumps`; with the format `a/b` and an existing `/tmp/dumps/a` the file would be a
grandchild. -/
theorem Register_escapes_directory :
    sampleFS.resolve "/tmp/dumps" = .ok (["tmp", "dumps"], .dir) ∧
    Register sampleFS sampleTime (some sampleDB) "/tmp/dumps" "../x" =
      { fs := sampleFS.set ["tmp", "x.sql"] (.file []),
        data := some
          { Out := some (.file { name := "/tmp/x.sql", key := ["tmp", "x.sql"] }),
            Connection := some sampleDB },
        err := none } ∧
    (Register sampleFS sampleTime (some sampleDB) "/tmp/dumps" "../x").fs.resolve
      "/tmp/dumps/x.sql" = .error .ENOENT := by
  refine ⟨rfl, by decide, rfl⟩

/-! ## `Close`: claims -/

/-- C2, the code at the failing input: the first `Close` of the sample session closes the
stream and the database and returns nil; the second `Close`, like every `Close` of a
session that has been closed, touches no resource and panics, because it calls `Close`
on the nil connection. -/
theorem Close_twice_panics :
    (Data.Close quietResources sampleSession).outcome = .returned none ∧
    (Data.Close quietResources sampleSession).calls
      = [.outClose (.other 7 true), .dbClose sampleDB] ∧
    ∀ (r : Resources) (d : Data),
      (Data.Close r (Data.Close r d).data).outcome = .panicked ∧
      (Data.Close r (Data.Close r d).data).calls = [] := by
  refine ⟨by decide, by decide, ?_⟩
  intro r d
  simp [Data.Close, closeBody, asCloser, connectionClose]

/-- C3, as the code has it: for an open session whose stream has a `Close` method that
returns, `Close` closes the stream, then the connection, and returns the result of the
connection's `Close`, whatever the stream's `Close` returned. -/
theorem Close_returns_connection_result (r : Resources) (d : Data) (w : Writer) (db : DB)
    (e : Option GoError) (hout : d.Out = some w) (hw : w.hasCloseMethod = true)
    (hdb : d.Connection = some db) (he : r.outClose w = .returns e) :
    (Data.Close r d).outcome = .returned (r.dbClose db) ∧
    (Data.Close r d).calls = [.outClose w, .dbClose db] := by
  simp [Data.Close, closeBody, asCloser, connectionClose, hout, hw, hdb, he]

/-- Instance of C3: the stream fails to close, the database closes, `Close` returns
nil. -/
theorem Close_returns_connection_result_witness :
    (Data.Close failingSinkResources sampleSession).outcome = .returned none ∧
    (Data.Close failingSinkResources sampleSession).calls
      = [.outClose (.other 7 true), .dbClose sampleDB] :=
  Close_returns_connection_result failingSinkResources sampleSession (.other 7 true) sampleDB
    (some (.new "close failed")) rfl rfl rfl rfl

/-- C3 fails as stated: the stream's `Close` fails with an error, the connection's
succeeds, and `Close` returns nil, not that error. -/
theorem Close_drops_sink_error :
    failingSinkResources.outClose (.other 7 true) = .returns (some (.new "close failed")) ∧
    sampleSession.Out = some (.other 7 true) ∧
    (Writer.other 7 true).hasCloseMethod = true ∧
    (Data.Close failingSinkResources sampleSession).outcome = .returned none ∧
    (Data.Close failingSinkResources sampleSession).outcome
      ≠ .returned (some (.new "close failed")) := by
  refine ⟨rfl, rfl, rfl, by decide, by decide⟩

/-- C4: for an open session `Close` closes the stream exactly once when it has a `Close`
method (whether that returns nil or an error) and not at all otherwise (a nil stream
included), and in each case it then closes the connection exactly once. Without a
`Close` method on the stream, the call returns, and returns what the connection's `Close`
returned: nil when the connection closes without error. -/
theorem Close_calls (r : Resources) (d : Data) (db : DB) (hdb : d.Connection = some db) :
    (asCloser d.Out = none ↔ (d.Out = none ∨ ∃ w, d.Out = some w ∧ w.hasCloseMethod = false)) ∧
    (asCloser d.Out = none →
      (Data.Close r d).calls = [.dbClose db] ∧
      (Data.Close r d).outcome = .returned (r.dbClose db) ∧
      (r.dbClose db = none → (Data.Close r d).outcome = .returned none)) ∧
    (∀ w e, d.Out = some w → w.hasCloseMethod = true → r.outClose w = .returns e →
      (Data.Close r d).calls = [.outClose w, .dbClose db] ∧
      (Data.Close r d).calls.count (.outClose w) = 1 ∧
      (Data.Close r d).calls.count (.dbClose db) = 1) := by
  refine ⟨?_, ?_, ?_⟩
  · cases hout : d.Out with
    | none => simp [asCloser]
    | some w => cases hw : w.hasCloseMethod <;> simp [asCloser, hw]
  · intro hnone
    have hcalls : (Data.Close r d).calls = [.dbClose db] := by
      simp [Data.Close, closeBody, hnone, connectionClose, hdb]
    have hres : (Data.Close r d).outcome = .returned (r.dbClose db) := by
      simp [Data.Close, closeBody, hnone, connectionClose, hdb]
    refine ⟨hcalls, hres, ?_⟩
    intro hok
    rw [hres, hok]
  · intro w e hout hw he
    have hcalls : (Data.Close r d).calls = [.outClose w, .dbClose db] := by
      simp [Data.Close, closeBody, asCloser, connectionClose, hout, hw, hdb, he]
    refine ⟨hcalls, ?_, ?_⟩
    · rw [hcalls]; simp [List.count_cons]
    · rw [hcalls]; simp [List.count_cons]

/-- Instance of C4: a session on a stream without a `Close` method, and the sample
session, whose stream has one. -/
theorem Close_calls_witness :
    (Data.Close quietResources { Out := some (.other 3 false), Connection := some sampleDB }).calls
      = [.dbClose sampleDB] ∧
    (Data.Close quietResources
      { Out := some (.other 3 false), Connection := some sampleDB }).outcome = .returned none ∧
    (Data.Close failingSinkResources sampleSession).calls
      = [.outClose (.other 7 true), .dbClose sampleDB] :=
  ⟨((Close_calls quietResources { Out := some (.other 3 false), Connection := some sampleDB }
      sampleDB rfl).2.1 rfl).1,
   ((Close_calls quietResources { Out := some (.other 3 false), Connection := some sampleDB }
      sampleDB rfl).2.1 rfl).2.2 rfl,
   ((Close_calls failingSinkResources sampleSession sampleDB rfl).2.2 (.other 7 true)
      (some (.new "close failed")) rfl rfl rfl).1⟩

/-- C10: however `Close` ends (the stream with or without a `Close` method, either close
succeeding, failing or panicking, the connection nil or not), both fields of the session
are nil afterwards; a closed session stays closed, and closing it again reaches no
resource. -/
theorem Close_clears_fields (r : Resources) (d : Data) :
    (Data.Close r d).data = { Out := none, Connection := none } ∧
    (Data.Close r (Data.Close r d).data).data = { Out := none, Connection := none } ∧
    (Data.Close r (Data.Close r d).data).calls = [] := by
  simp [Data.Close, closeBody, asCloser, connectionClose]

end Mysqldump
